import Mathlib

/-!
# Verification of `frequent_direction/fd_sketch.py`

Shallow embedding of the Frequent Directions sketch engine
(`class FrequentDirection` together with the helper functions
`calculateError` and `squaredFrobeniusNorm`) and proofs about it.

Matrices are dense row-major lists of rows over `ℚ` (exact arithmetic in
place of IEEE floats).  The dense SVD routine `numpy.linalg.svd(·,
full_matrices=False)` and `math.sqrt` are external library collaborators:
they are modelled as an `Oracle` parameter; theorems that depend on their
contract (shapes, descending non-negative singular values, `sqrt 0 = 0`)
take that contract as a hypothesis (`GoodOracle`), and concrete runs
instantiate the oracle with explicit, certified decompositions.
-/

set_option maxRecDepth 10000

/- The Batteries rational-number operations are `@[irreducible]`, which
prevents concrete engine runs from being checked by `decide`/`rfl`; restore
the default reducibility for this file so that witnesses evaluate. -/
attribute [local semireducible] Rat.mul Rat.add Rat.sub Rat.inv

/-- Decidable equality for `Except`, needed to check concrete engine runs
by `decide`. -/
instance {ε α : Type} [DecidableEq ε] [DecidableEq α] :
    DecidableEq (Except ε α) := fun x y =>
  match x, y with
  | .ok a, .ok b =>
    if h : a = b then .isTrue (by rw [h]) else
      .isFalse (by intro hc; cases hc; exact h rfl)
  | .error a, .error b =>
    if h : a = b then .isTrue (by rw [h]) else
      .isFalse (by intro hc; cases hc; exact h rfl)
  | .ok _, .error _ => .isFalse (by intro hc; cases hc)
  | .error _, .ok _ => .isFalse (by intro hc; cases hc)

namespace FDSketch

/-! ### Definitions: the embedded program, its oracle contract, and the
concrete states, oracles and traces used by the claim theorems. -/

/-- A row vector (one sample). -/
abbrev Row : Type := List ℚ

/-- A dense row-major matrix. -/
abbrev Mat : Type := List (List ℚ)

/-- Number of columns (`shape[1]` of a numpy 2-D array); all matrices built
by the code are rectangular. -/
def cols (b : Mat) : ℕ := (b.headD []).length

/-- `np.zeros([r, c])`. -/
def zeroMat (r c : ℕ) : Mat := List.replicate r (List.replicate c 0)

/-- Entry access with numpy-style 0 default (only used inside bounds). -/
def getE (b : Mat) (i j : ℕ) : ℚ := (b.getD i []).getD j 0

/-- `np.dot` for 2-D arrays: ordinary matrix product. -/
def matMul (a b : Mat) : Mat :=
  (List.range a.length).map fun i =>
    (List.range (cols b)).map fun j =>
      ((List.range b.length).map fun t => getE a i t * getE b t j).sum

/-- `np.diagflat`: square diagonal matrix from a list. -/
def diagflat (s : List ℚ) : Mat :=
  (List.range s.length).map fun i =>
    (List.range s.length).map fun j => if i = j then s.getD i 0 else 0

/-- Floor of a rational, computed on numerator and denominator so that it
evaluates by kernel reduction (`Int` division is Euclidean, hence floor
division for the positive denominator). -/
def qfloor (q : ℚ) : ℤ := q.num / (q.den : ℤ)

/-- Python 3 `round` to an integer: round half to even. -/
def roundHalfEven (q : ℚ) : ℤ :=
  let n := qfloor q
  let f := q - n
  if f < 1 / 2 then n
  else if 1 / 2 < f then n + 1
  else if n % 2 = 0 then n else n + 1

/-- Python `round(q, 7)`: rounding at 7 decimal digits. -/
def round7 (q : ℚ) : ℚ := (roundHalfEven (q * 10 ^ 7) : ℚ) / 10 ^ 7

/-- Result of `numpy.linalg.svd(b, full_matrices=False)`:
`U`, the vector `σ` of singular values (descending), and `Vᵀ` (called
`mat_v` in the source). -/
structure SVDOut where
  U : Mat
  sigma : List ℚ
  V : Mat
deriving DecidableEq, Repr

/-- The external numeric collaborators of the engine: the dense SVD routine
and `math.sqrt`. -/
structure Oracle where
  svd : Mat → SVDOut
  sqrt : ℚ → ℚ

/-- Error taxonomy.  The Python code raises `ValueError` (its own two
`raise` sites and numpy's) or `IndexError`/`TypeError`; constructors are
named after the raise site, matching the spec's taxonomy where it applies:
* `configuration` – `get_result` with `ell + k >= N`;
* `dimension` – `initialize` with `ell >= M`;
* `broadcast` – numpy row assignment with an incompatible row length;
* `negativeSize` – `np.zeros` with a negative dimension;
* `indexError` – sequence index out of range;
* `typeError` – subscripting `None`. -/
inductive Err where
  | configuration
  | dimension
  | broadcast
  | negativeSize
  | indexError
  | typeError
deriving DecidableEq, Repr

/-- State of a `FrequentDirection` object (fields as in `__init__`). -/
structure FD where
  ell : ℤ
  k : ℤ
  M : Option ℕ
  N : ℕ
  mat_b : Option Mat
  zero_rows : Option (List ℕ)
deriving DecidableEq, Repr

/-- `FrequentDirection(ell, k)`: the constructor stores `ell` and `k`
(defaulting `k` to `2*ell+1`) and performs no validation. -/
def fdNew (ell : ℤ) (k : Option ℤ) : FD :=
  { ell := ell, k := k.getD (2 * ell + 1), M := none, N := 0,
    mat_b := none, zero_rows := none }

/-- `is_initialized`. -/
def FD.is_initialized (fd : FD) : Bool := fd.M.isSome

/-- The buffer, defaulting to `[]` when not yet allocated. -/
def bOf (fd : FD) : Mat := fd.mat_b.getD []

/-- The free-row index list, defaulting to `[]`. -/
def zrOf (fd : FD) : List ℕ := fd.zero_rows.getD []

/-- The established column dimension, defaulting to `0`. -/
def mOf (fd : FD) : ℕ := fd.M.getD 0

/-- The method `initialize(row)` (the name is a Lean keyword, hence
`initState` here).  Mutation order as in the source: `self.M` is set
first, then `ell >= M` is checked, then `N = 0`, then the buffer is
allocated (`np.zeros` rejects negative sizes), then `zero_rows`.  Errors
carry the state at the time of the raise. -/
def FD.initState (fd : FD) (row : Row) : Except (Err × FD) FD :=
  let fd1 : FD := { fd with M := some row.length }
  if (row.length : ℤ) ≤ fd1.ell then .error (.dimension, fd1)
  else
    let fd2 : FD := { fd1 with N := 0 }
    if fd1.ell + fd1.k < 0 then .error (.negativeSize, fd2)
    else .ok { fd2 with
      mat_b := some (zeroMat (fd1.ell + fd1.k).toNat row.length),
      zero_rows := some (List.range (fd1.ell + fd1.k).toNat) }

/-- numpy `b[j, :] = row`: requires `j` in range; the assigned row must
have length equal to the number of columns, or length 1, which numpy
silently broadcasts across the whole row. -/
def setRow (b : Mat) (j : ℕ) (row : Row) : Except Err Mat :=
  if j < b.length then
    if row.length = cols b then .ok (b.set j row)
    else if row.length = 1 then .ok (b.set j (List.replicate (cols b) (row.getD 0 0)))
    else .error .broadcast
  else .error .indexError

/-- The shrink operation (source lines 76–89): reduced SVD of the buffer,
threshold `vec_sigma[self.ell] ** 2` (Python indexing, with negative
wrap-around), `sigma_tilda`, buffer replacement by
`np.dot(np.diagflat(sigma_tilda), mat_v)` (`np.dot` requires the inner
dimensions to agree), and recomputation of `zero_rows` as the indices of
the rows of the new buffer whose sum rounds to `0` at 7 digits. -/
def shrinkStep (o : Oracle) (ell : ℤ) (b : Mat) : Except Err (Mat × List ℕ) :=
  let out := o.svd b
  let idx : ℤ := if ell < 0 then ell + out.sigma.length else ell
  if 0 ≤ idx ∧ idx.toNat < out.sigma.length then
    let c := (out.sigma.getD idx.toNat 0) ^ 2
    let tilda := out.sigma.map fun s =>
      (fun d => if d < 0 then 0 else o.sqrt d) (s ^ 2 - c)
    if cols (diagflat tilda) = out.V.length then
      let b2 := matMul (diagflat tilda) out.V
      .ok (b2, (List.range b2.length).filter fun i => round7 ((b2.getD i []).sum) = 0)
    else .error .dimension
  else .error .indexError

/-- Body of `add_sample` once the engine is (supposedly) initialized:
insert the row at `zero_rows[0]`, pop that index, shrink when the free
list becomes empty, and increment `N`.  The `Bool` is instrumentation
only: `true` iff the shrink branch was taken. -/
def FD.addBody (o : Oracle) (fd : FD) (row : Row) : Except (Err × FD) (FD × Bool) :=
  match fd.zero_rows with
  | none => .error (.typeError, fd)
  | some zr =>
    match zr with
    | [] => .error (.indexError, fd)
    | j :: rest =>
      match fd.mat_b with
      | none => .error (.typeError, fd)
      | some b =>
        match setRow b j row with
        | .error e => .error (e, fd)
        | .ok b1 =>
          let fd1 : FD := { fd with mat_b := some b1, zero_rows := some rest }
          if rest.isEmpty then
            match shrinkStep o fd1.ell b1 with
            | .error e => .error (e, fd1)
            | .ok (b2, zr2) =>
              .ok ({ fd1 with
                       mat_b := some b2
                       zero_rows := some zr2
                       N := fd1.N + 1 }, true)
          else .ok ({ fd1 with N := fd1.N + 1 }, false)

/-- `add_sample(row)`: lazy initialization, then the insertion/shrink body. -/
def FD.add_sample (o : Oracle) (fd : FD) (row : Row) : Except (Err × FD) (FD × Bool) :=
  match (if fd.is_initialized then .ok fd else fd.initState row :
      Except (Err × FD) FD) with
  | .error e => .error e
  | .ok fd' => fd'.addBody o row

/-- Python `b[:e]` for a list of rows (negative limits slice from the
end). -/
def pySlice (b : Mat) (e : ℤ) : Mat :=
  if 0 ≤ e then b.take e.toNat else b.take ((b.length : ℤ) + e).toNat

/-- `get_result(initialize)` (the keyword argument is called `reinit`
here): raises unless `N > ell + k`, else returns the first `ell` buffer
rows, re-running `__init__(ell, k)` on the engine when the flag is true. -/
def FD.get_result (fd : FD) (reinit : Bool) : Except (Err × FD) (Mat × FD) :=
  if (fd.N : ℤ) ≤ fd.ell + fd.k then .error (.configuration, fd)
  else
    match fd.mat_b with
    | none => .error (.typeError, fd)
    | some b =>
      let result := pySlice b fd.ell
      if reinit then .ok (result, fdNew fd.ell (some fd.k))
      else .ok (result, fd)

/-- Feed a list of rows through `add_sample`, also counting how many adds
took the shrink branch (ghost instrumentation). -/
def addSeqC (o : Oracle) (fd : FD) (rows : List Row) : Except (Err × FD) (FD × ℕ) :=
  rows.foldlM
    (fun p row => (FD.add_sample o p.1 row).map fun q =>
      (q.1, p.2 + (if q.2 then 1 else 0)))
    (fd, 0)

/-- Feed a list of rows through `add_sample`. -/
def addSeq (o : Oracle) (fd : FD) (rows : List Row) : Except (Err × FD) FD :=
  (addSeqC o fd rows).map Prod.fst

/-- Sum of squares of all entries of a matrix. -/
def sumSq (a : Mat) : ℚ := (a.map fun r => (r.map fun x => x ^ 2).sum).sum

/-- The Gram matrix `np.dot(a.T, a)` of a matrix with `m` columns. -/
def gram (m : ℕ) (a : Mat) : Matrix (Fin m) (Fin m) ℚ :=
  Matrix.of fun i j => (a.map fun r => r.getD i 0 * r.getD j 0).sum

/-- `b` is rectangular with `m` columns. -/
def rect (m : ℕ) (b : Mat) : Prop := ∀ r ∈ b, r.length = m

instance (m : ℕ) (b : Mat) : Decidable (rect m b) :=
  inferInstanceAs (Decidable (∀ r ∈ b, r.length = m))

/-- Boolean test for weakly descending order (a kernel-evaluable
formulation, needed so that counterexample certificates check by
`decide`). -/
def descendingB : List ℚ → Bool
  | [] => true
  | [_] => true
  | x :: y :: t => decide (y ≤ x) && descendingB (y :: t)

/-- Sorted in (weakly) descending order. -/
def descending (s : List ℚ) : Prop := descendingB s = true

instance (s : List ℚ) : Decidable (descending s) :=
  inferInstanceAs (Decidable (descendingB s = true))

/-- Shape/ordering contract of `numpy.linalg.svd(·, full_matrices=False)`. -/
def GoodSVD (b : Mat) (out : SVDOut) : Prop :=
  out.sigma.length = min b.length (cols b) ∧
  out.V.length = out.sigma.length ∧
  rect (cols b) out.V ∧
  descending out.sigma ∧
  ∀ s ∈ out.sigma, 0 ≤ s

instance (b : Mat) (out : SVDOut) : Decidable (GoodSVD b out) :=
  inferInstanceAs (Decidable
    (out.sigma.length = min b.length (cols b) ∧
     out.V.length = out.sigma.length ∧
     rect (cols b) out.V ∧
     descending out.sigma ∧
     ∀ s ∈ out.sigma, 0 ≤ s))

/-- Oracle contract: every SVD call obeys the numpy shape/ordering
contract, and `sqrt 0 = 0` (true of `math.sqrt`). -/
def GoodOracle (o : Oracle) : Prop :=
  (∀ b, GoodSVD b (o.svd b)) ∧ o.sqrt 0 = 0

/-- Dot product of two rows. -/
def dotR (x y : Row) : ℚ := ((x.zip y).map fun p => p.1 * p.2).sum

/-- The rows of `b` are orthonormal. -/
def orthonormalRows (b : Mat) : Prop :=
  ∀ i < b.length, ∀ j < b.length,
    dotR (b.getD i []) (b.getD j []) = if i = j then 1 else 0

instance (b : Mat) : Decidable (orthonormalRows b) :=
  inferInstanceAs (Decidable
    (∀ i < b.length, ∀ j < b.length,
      dotR (b.getD i []) (b.getD j []) = if i = j then 1 else 0))

/-- Transpose of a rectangular matrix. -/
def transposeM (b : Mat) : Mat :=
  (List.range (cols b)).map fun j => b.map fun r => r.getD j 0

/-- `out` is a genuine reduced SVD of `b`: correct shapes, `σ` descending
and non-negative, orthonormal rows of `Vᵀ`, orthonormal columns of `U`,
and `b = U · diag(σ) · Vᵀ`. -/
def isSVDOf (b : Mat) (out : SVDOut) : Prop :=
  GoodSVD b out ∧
  out.U.length = b.length ∧
  rect out.sigma.length out.U ∧
  orthonormalRows out.V ∧
  orthonormalRows (transposeM out.U) ∧
  matMul out.U (matMul (diagflat out.sigma) out.V) = b

instance (b : Mat) (out : SVDOut) : Decidable (isSVDOf b out) :=
  inferInstanceAs (Decidable
    (GoodSVD b out ∧
     out.U.length = b.length ∧
     rect out.sigma.length out.U ∧
     orthonormalRows out.V ∧
     orthonormalRows (transposeM out.U) ∧
     matMul out.U (matMul (diagflat out.sigma) out.V) = b))

/-- A shape-correct but otherwise trivial SVD (all singular values `0`),
used as a default oracle value. -/
def trivSVD (b : Mat) : SVDOut :=
  ⟨[], List.replicate (min b.length (cols b)) 0,
    List.replicate (min b.length (cols b)) (List.replicate (cols b) 0)⟩

/-- An oracle answering every SVD query with `trivSVD`. -/
def trivOracle : Oracle := ⟨trivSVD, fun _ => 0⟩

/-- An oracle answering from a finite table of precomputed decompositions,
falling back to `trivSVD`. -/
def tableO (tbl : List (Mat × SVDOut)) (sq : ℚ → ℚ) : Oracle :=
  ⟨fun b => (((tbl.find? fun p => decide (p.1 = b)).map Prod.snd).getD
    (trivSVD b)), sq⟩

/-- Number of buffer rows as a function of the shrink count: `ell+k` rows
until the first shrink, `min(ell+k, M)` afterwards (the reduced SVD of a
fat buffer has only `M` right-singular vectors). -/
def bufRows (fd : FD) (sc : ℕ) (m : ℕ) : ℕ :=
  if sc = 0 then (fd.ell + fd.k).toNat else min (fd.ell + fd.k).toNat m

/-- Invariant of initialized reachable states; `sc` is the number of
shrinks performed so far. -/
def Inv (fd : FD) (sc : ℕ) : Prop :=
  1 ≤ fd.ell ∧ 1 ≤ fd.k ∧
  fd.M = some (mOf fd) ∧ fd.mat_b = some (bOf fd) ∧
  fd.zero_rows = some (zrOf fd) ∧
  fd.ell < (mOf fd : ℤ) ∧ rect (mOf fd) (bOf fd) ∧
  (bOf fd).length = bufRows fd sc (mOf fd) ∧
  zrOf fd ≠ [] ∧ ∀ i ∈ zrOf fd, i < (bOf fd).length

instance (fd : FD) (sc : ℕ) : Decidable (Inv fd sc) :=
  inferInstanceAs (Decidable
    (1 ≤ fd.ell ∧ 1 ≤ fd.k ∧
     fd.M = some (mOf fd) ∧ fd.mat_b = some (bOf fd) ∧
     fd.zero_rows = some (zrOf fd) ∧
     fd.ell < (mOf fd : ℤ) ∧ rect (mOf fd) (bOf fd) ∧
     (bOf fd).length = bufRows fd sc (mOf fd) ∧
     zrOf fd ≠ [] ∧ ∀ i ∈ zrOf fd, i < (bOf fd).length))

/-- A freshly-constructed (or freshly-reset) engine state. -/
def Fresh (fd : FD) : Prop :=
  fd.M = none ∧ fd.mat_b = none ∧ fd.zero_rows = none ∧ fd.N = 0 ∧
  1 ≤ fd.ell ∧ 1 ≤ fd.k

/-- `addSeqC` generalized to an arbitrary starting shrink count. -/
def addSeqFrom (o : Oracle) (p : FD × ℕ) (rows : List Row) :
    Except (Err × FD) (FD × ℕ) :=
  rows.foldlM
    (fun p row => (FD.add_sample o p.1 row).map fun q =>
      (q.1, p.2 + (if q.2 then 1 else 0)))
    p

/-- Bookkeeping along a run from a fresh engine: the shrink count, `N`
and the free-list length are linked.  `t` abbreviates `(ell+k).toNat`. -/
def Reach (ell k : ℤ) (m : ℕ) (p : FD × ℕ) : Prop :=
  p.1.ell = ell ∧ p.1.k = k ∧
  ((Fresh p.1 ∧ p.2 = 0) ∨
   (Inv p.1 p.2 ∧ p.1.M = some m ∧
    (p.2 = 0 → p.1.N + (zrOf p.1).length = (ell + k).toNat) ∧
    (1 ≤ p.2 → (ell + k).toNat + p.2 ≤ p.1.N + 1)))

/-- An oracle table for the `ell = 0` run in the C5 counterexample (the
two 1 × 2 buffers met at the two shrinks, with their exact SVDs). -/
def oC5 : Oracle := tableO
  [([[1,0]], ⟨[[1]], [1], [[1,0]]⟩), ([[2,0]], ⟨[[1]], [2], [[1,0]]⟩)]
  (fun _ => 0)

/-- The engine state after constructing with `ell = 1, k = 2` and adding
the single row `[1,2,3]` (so `M = 3` is established). -/
def fdC6 : FD := ⟨1, 2, some 3, 1, some [[1,2,3],[0,0,0],[0,0,0]], some [1,2]⟩

/-- The shrink operation exactly as the spec's words describe it (for
comparison with the code): SVD of the (post-insertion) buffer, threshold
`σ[ell]²` at the 0-based index `ell`, shrunk singular values
`σ̃ᵢ = sqrt(max(0, σᵢ² − threshold))` for every `i`, buffer replaced by
`diag(σ̃) · Vᵀ`, and the free-row list recomputed as exactly the indices
of rows of the new buffer whose row sum rounds to zero at 7 decimal
digits. -/
def shrinkDescribed (o : Oracle) (ell : ℕ) (b : Mat) : Mat × List ℕ :=
  let out := o.svd b
  let threshold := (out.sigma.getD ell 0) ^ 2
  let tilda := out.sigma.map fun s => o.sqrt (max 0 (s ^ 2 - threshold))
  let b2 := matMul (diagflat tilda) out.V
  (b2, (List.range b2.length).filter fun i => round7 ((b2.getD i []).sum) = 0)

/-- Oracle table for the C2 witness: the exact SVD of `[[3,4],[0,0]]`. -/
def oC2 : Oracle := tableO
  [([[3,4],[0,0]], ⟨[[1,0],[0,1]], [5,0], [[3/5,4/5],[4/5,-3/5]]⟩)]
  (fun d => if d = 25 then 5 else 0)

/-- Oracle table for the C1 counterexample run (`ell = 1`, default
`k = 3`, `M = 2`): exact SVDs of the two buffers met at the two shrinks. -/
def oC1 : Oracle := tableO
  [([[3,4],[0,0],[0,0],[0,0]],
    ⟨[[1,0],[0,1],[0,0],[0,0]], [5,0], [[3/5,4/5],[4/5,-3/5]]⟩),
   ([[3,4],[0,0]],
    ⟨[[1,0],[0,1]], [5,0], [[3/5,4/5],[4/5,-3/5]]⟩)]
  (fun d => if d = 25 then 5 else 0)

/-- The seven input rows of the C3 run: multiples of `w = (1,1,-1,-1)`. -/
def rowsC3 : List Row :=
  [[2,2,-2,-2],[2,2,-2,-2],[1,1,-1,-1],
   [2,2,-2,-2],[2,2,-2,-2],[1,1,-1,-1],[1,1,-1,-1]]

/-- The (rank-one) full buffer met at both shrinks of the C3 run. -/
def B1C3 : Mat := [[2,2,-2,-2],[2,2,-2,-2],[1,1,-1,-1]]

/-- An exact reduced SVD of `B1C3` (all entries rational). -/
def outC3 : SVDOut :=
  ⟨[[2/3,2/3,1/3],[2/3,-1/3,-2/3],[1/3,-2/3,2/3]], [6,0,0],
   [[1/2,1/2,-1/2,-1/2],[1/2,-1/2,1/2,-1/2],[1/2,-1/2,-1/2,1/2]]⟩

def oC3 : Oracle := tableO [(B1C3, outC3)] (fun d => if d = 36 then 6 else 0)

/-- The engine state after feeding the seven rows (`ell = 2`, `k = 1`). -/
def fdC3 : FD :=
  ⟨2, 1, some 4, 7, some [[1,1,-1,-1],[0,0,0,0],[0,0,0,0]], some [1,2]⟩

/-- The sketch returned by `get_result`. -/
def BresC3 : Mat := [[1,1,-1,-1],[0,0,0,0]]

/-- The weight vector `w`. -/
def wq : Fin 4 → ℚ := ![1,1,-1,-1]

/-- `squaredFrobeniusNorm(mat_a) = ln.norm(mat_a, ord='fro') ** 2`. -/
noncomputable def squaredFrobeniusNorm (a : Mat) : ℝ :=
  Real.sqrt ((sumSq a : ℚ) : ℝ) ^ 2

/-- Spectral norm (`numpy.linalg.norm(·, ord=2)`, the operator 2-norm =
largest singular value) of a square real matrix. -/
noncomputable def specNorm {m : ℕ} (S : Matrix (Fin m) (Fin m) ℝ) : ℝ :=
  ‖LinearMap.toContinuousLinearMap (Matrix.toEuclideanLin S)‖

/-- `calculateError(mat_a, mat_b)` for matrices of `m` columns. -/
noncomputable def calculateError (m : ℕ) (a b : Mat) : ℝ :=
  specNorm (((gram m a).map fun q => (q : ℝ)) - ((gram m b).map fun q => (q : ℝ)))

/-! ### Lemmas and claim theorems. -/

lemma descendingB_chain' :
    ∀ s : List ℚ, descendingB s = true → List.Chain' (fun x y => y ≤ x) s
  | [] , _ => List.chain'_nil
  | [x], _ => by simp
  | x :: y :: t, h => by
    have h' : (y ≤ x) ∧ descendingB (y :: t) = true := by
      have : descendingB (x :: y :: t) =
          (decide (y ≤ x) && descendingB (y :: t)) := rfl
      rw [this, Bool.and_eq_true, decide_eq_true_iff] at h
      exact h
    exact List.chain'_cons.mpr ⟨h'.1, descendingB_chain' (y :: t) h'.2⟩

lemma descendingB_replicate (n : ℕ) :
    descendingB (List.replicate n (0 : ℚ)) = true := by
  induction n with
  | zero => rfl
  | succ n ih =>
    cases n with
    | zero => rfl
    | succ m =>
      have h1 : List.replicate (m + 2) (0 : ℚ) =
          0 :: 0 :: List.replicate m 0 := rfl
      have h2 : descendingB ((0 : ℚ) :: 0 :: List.replicate m 0) =
          (decide ((0 : ℚ) ≤ 0) && descendingB ((0 : ℚ) :: List.replicate m 0)) := rfl
      have h3 : (0 : ℚ) :: List.replicate m 0 = List.replicate (m + 1) 0 := rfl
      rw [h1, h2, h3, ih]
      simp

lemma trivSVD_good (b : Mat) : GoodSVD b (trivSVD b) := by
  refine ⟨List.length_replicate .., ?_, ?_, ?_, ?_⟩
  · simp [trivSVD]
  · intro r hr
    rw [List.eq_of_mem_replicate hr]
    exact List.length_replicate ..
  · show descendingB _ = true
    simp only [trivSVD]
    exact descendingB_replicate _
  · intro s hs
    rw [List.eq_of_mem_replicate hs]

lemma goodOracle_triv : GoodOracle trivOracle := ⟨trivSVD_good, rfl⟩

lemma tableO_good (tbl : List (Mat × SVDOut)) (sq : ℚ → ℚ)
    (h : ∀ p ∈ tbl, GoodSVD p.1 p.2) (h0 : sq 0 = 0) :
    GoodOracle (tableO tbl sq) := by
  refine ⟨fun b => ?_, h0⟩
  show GoodSVD b ((((tbl.find? fun p => decide (p.1 = b)).map Prod.snd).getD
    (trivSVD b)))
  cases hf : tbl.find? fun p => decide (p.1 = b) with
  | none => exact trivSVD_good b
  | some p =>
    have hmem : p ∈ tbl := List.mem_of_find?_eq_some hf
    have heq : p.1 = b := by
      have := List.find?_some hf
      simpa using this
    simpa [heq] using h p hmem

lemma cols_eq_of_rect {m : ℕ} {b : Mat} (hb : rect m b) (hne : b ≠ []) :
    cols b = m := by
  cases b with
  | nil => exact absurd rfl hne
  | cons r t => exact hb r (List.mem_cons_self ..)

lemma rect_zeroMat (r c : ℕ) : rect c (zeroMat r c) := by
  intro row hrow
  rw [List.eq_of_mem_replicate hrow]
  exact List.length_replicate ..

lemma length_zeroMat (r c : ℕ) : (zeroMat r c).length = r :=
  List.length_replicate ..

lemma length_matMul (a b : Mat) : (matMul a b).length = a.length := by
  simp [matMul]

lemma rect_matMul (a b : Mat) : rect (cols b) (matMul a b) := by
  intro row hrow
  simp only [matMul, List.mem_map] at hrow
  obtain ⟨i, _, rfl⟩ := hrow
  simp

lemma length_diagflat (s : List ℚ) : (diagflat s).length = s.length := by
  simp [diagflat]

lemma cols_diagflat (s : List ℚ) : cols (diagflat s) = s.length := by
  unfold diagflat cols
  cases hn : s.length with
  | zero => simp
  | succ n =>
    rw [List.range_succ_eq_map]
    simp

lemma getD_map_range {α : Type} (n i : ℕ) (hi : i < n) (f : ℕ → α) (d : α) :
    ((List.range n).map f).getD i d = f i := by
  rw [List.getD_eq_getElem?_getD, List.getElem?_map, List.getElem?_range hi]
  rfl

lemma getD_map_of_lt {α β : Type} (l : List α) (f : α → β) (i : ℕ)
    (hi : i < l.length) (d : β) (d' : α) :
    (l.map f).getD i d = f (l.getD i d') := by
  rw [List.getD_eq_getElem?_getD, List.getElem?_map,
    List.getElem?_eq_getElem hi, List.getD_eq_getElem?_getD,
    List.getElem?_eq_getElem hi]
  rfl

lemma sum_range_map_single (n i : ℕ) (hi : i < n) (f : ℕ → ℚ)
    (h : ∀ t, t ≠ i → f t = 0) : ((List.range n).map f).sum = f i := by
  induction n with
  | zero => omega
  | succ n ih =>
    rw [List.range_succ, List.map_append, List.sum_append]
    rcases Nat.lt_or_ge i n with hlt | hge
    · rw [ih hlt]
      simp [h n (by omega)]
    · have hin : i = n := by omega
      subst hin
      have hz : ((List.range i).map f).sum = 0 := by
        apply List.sum_eq_zero
        intro x hx
        simp only [List.mem_map, List.mem_range] at hx
        obtain ⟨t, ht, rfl⟩ := hx
        exact h t (by omega)
      simp [hz]

lemma getE_diagflat (s : List ℚ) (i t : ℕ) (hi : i < s.length) :
    getE (diagflat s) i t =
      if i = t ∧ t < s.length then s.getD i 0 else 0 := by
  unfold getE diagflat
  rw [getD_map_range _ _ hi]
  rcases Nat.lt_or_ge t s.length with h | h
  · rw [getD_map_range _ _ h]
    by_cases hit : i = t <;> simp [hit, h]
  · rw [List.getD_eq_getElem?_getD, List.getElem?_eq_none (by simpa using h)]
    rw [if_neg (by rintro ⟨_, h2⟩; omega)]
    rfl

/-- Row `i` of `np.dot(np.diagflat(s), V)` is `s i • (row i of V)`. -/
lemma diag_mul_row (s : List ℚ) (V : Mat) (hlen : V.length = s.length)
    (i : ℕ) (hi : i < s.length) :
    (matMul (diagflat s) V).getD i [] =
      (List.range (cols V)).map fun j => s.getD i 0 * getE V i j := by
  have hi' : i < (diagflat s).length := by rw [length_diagflat]; exact hi
  unfold matMul
  rw [getD_map_range _ _ (by rwa [length_diagflat])]
  apply List.map_congr_left
  intro j _
  rw [sum_range_map_single V.length i (by omega) _ ?_]
  · rw [getE_diagflat s i i hi]
    simp [hi]
  · intro t ht
    rw [getE_diagflat s i t hi]
    rw [if_neg (by rintro ⟨h1, _⟩; exact ht h1.symm)]
    exact zero_mul _

lemma diag_mul_row_sum_zero (s : List ℚ) (V : Mat)
    (hlen : V.length = s.length) (i : ℕ) (hi : i < s.length)
    (hz : s.getD i 0 = 0) :
    ((matMul (diagflat s) V).getD i []).sum = 0 := by
  rw [diag_mul_row s V hlen i hi]
  apply List.sum_eq_zero
  intro x hx
  simp only [List.mem_map] at hx
  obtain ⟨j, _, rfl⟩ := hx
  rw [hz, zero_mul]

lemma round7_zero : round7 0 = 0 := by decide

/-- In a descending list, later entries are no larger. -/
lemma descending_getD_le (s : List ℚ) (hd : descending s)
    (i j : ℕ) (hij : i ≤ j) (hj : j < s.length) :
    s.getD j 0 ≤ s.getD i 0 := by
  rcases eq_or_lt_of_le hij with rfl | hlt
  · exact le_rfl
  · haveI : IsTrans ℚ (fun x y => y ≤ x) := ⟨fun a b c h1 h2 => le_trans h2 h1⟩
    have hp : List.Pairwise (fun x y => y ≤ x) s :=
      List.chain'_iff_pairwise.mp (descendingB_chain' s hd)
    rw [List.pairwise_iff_get] at hp
    have hgot := hp ⟨i, by omega⟩ ⟨j, hj⟩ hlt
    rw [List.getD_eq_getElem?_getD, List.getElem?_eq_getElem hj,
      List.getD_eq_getElem?_getD, List.getElem?_eq_getElem (by omega : i < s.length)]
    exact hgot

lemma setRow_ok_length {b : Mat} {j : ℕ} {row : Row} {b1 : Mat}
    (h : setRow b j row = .ok b1) : b1.length = b.length := by
  unfold setRow at h
  split_ifs at h with h1 h2 h3
  · cases h
    exact List.length_set ..
  · cases h
    exact List.length_set ..

lemma setRow_ok_rect {m : ℕ} {b : Mat} {j : ℕ} {row : Row} {b1 : Mat}
    (hm : rect m b) (hcols : cols b = m) (h : setRow b j row = .ok b1) :
    rect m b1 := by
  unfold setRow at h
  split_ifs at h with h1 h2 h3
  · cases h
    intro r hr
    rcases List.mem_or_eq_of_mem_set hr with hr' | rfl
    · exact hm r hr'
    · rw [h2, hcols]
  · cases h
    intro r hr
    rcases List.mem_or_eq_of_mem_set hr with hr' | rfl
    · exact hm r hr'
    · rw [List.length_replicate, hcols]

lemma setRow_cases {b : Mat} {j : ℕ} {row : Row} (hj : j < b.length) :
    (row.length = cols b ∧ setRow b j row = .ok (b.set j row)) ∨
    (row.length ≠ cols b ∧ row.length = 1 ∧
      setRow b j row = .ok (b.set j (List.replicate (cols b) (row.getD 0 0)))) ∨
    (row.length ≠ cols b ∧ row.length ≠ 1 ∧ setRow b j row = .error .broadcast) := by
  unfold setRow
  rw [if_pos hj]
  by_cases h1 : row.length = cols b
  · exact Or.inl ⟨h1, by rw [if_pos h1]⟩
  · rw [if_neg h1]
    by_cases h2 : row.length = 1
    · exact Or.inr (Or.inl ⟨h1, h2, by rw [if_pos h2]⟩)
    · exact Or.inr (Or.inr ⟨h1, h2, by rw [if_neg h2]⟩)

lemma shrinkStep_eq (o : Oracle) (ell : ℤ) (b1 : Mat) (h0 : 0 ≤ ell)
    (hlt : ell.toNat < (o.svd b1).sigma.length)
    (hV : (o.svd b1).V.length = (o.svd b1).sigma.length) :
    shrinkStep o ell b1 =
      (let out := o.svd b1
       let c := (out.sigma.getD ell.toNat 0) ^ 2
       let tilda := out.sigma.map fun s =>
         (fun d => if d < 0 then 0 else o.sqrt d) (s ^ 2 - c)
       let b2 := matMul (diagflat tilda) out.V
       .ok (b2, (List.range b2.length).filter fun i =>
         round7 ((b2.getD i []).sum) = 0)) := by
  simp only [shrinkStep]
  rw [if_neg (by omega : ¬ell < 0)]
  rw [if_pos (by constructor <;> omega)]
  rw [if_pos (by rw [cols_diagflat, List.length_map, hV])]

/-- Under the oracle contract, the shrink of a rectangular non-empty
buffer with `1 ≤ ell < m` and `ell <` row count succeeds, yields a
rectangular `min(rows, m) × m` buffer, and frees at least row `ell`
(whose shrunk singular value is exactly zero). -/
lemma shrinkStep_spec (o : Oracle) (hG : GoodOracle o) (ell : ℤ)
    (he : 1 ≤ ell) (m : ℕ) (hm : ell < (m : ℤ)) (b1 : Mat)
    (hrect : rect m b1) (hne : b1 ≠ [])
    (hlen : ell < (b1.length : ℤ)) :
    ∃ b2 zr2, shrinkStep o ell b1 = .ok (b2, zr2) ∧
      b2.length = min b1.length m ∧ rect m b2 ∧
      zr2 ≠ [] ∧ (∀ i ∈ zr2, i < b2.length) := by
  have hcols : cols b1 = m := cols_eq_of_rect hrect hne
  obtain ⟨hσ, hV, hrV, hdesc, hnn⟩ := hG.1 b1
  rw [hcols] at hσ hrV
  have hltσ : ell.toNat < (o.svd b1).sigma.length := by
    rw [hσ]
    have h1 : ell.toNat < b1.length := by omega
    have h2 : ell.toNat < m := by omega
    omega
  rw [shrinkStep_eq o ell b1 (by omega) hltσ hV]
  set out := o.svd b1 with hout
  set c := (out.sigma.getD ell.toNat 0) ^ 2 with hc
  set tilda := out.sigma.map fun s =>
    (fun d => if d < 0 then 0 else o.sqrt d) (s ^ 2 - c) with htilda
  set b2 := matMul (diagflat tilda) out.V with hb2
  have htl : tilda.length = out.sigma.length := List.length_map ..
  have hb2len : b2.length = min b1.length m := by
    rw [hb2, length_matMul, length_diagflat, htl, hσ]
  have hVlen : out.V.length = tilda.length := by rw [htl, hV]
  have hVne : out.V ≠ [] := by
    have : 0 < out.V.length := by
      rw [hV, hσ]
      omega
    exact List.ne_nil_of_length_pos this
  have hcolsV : cols out.V = m := cols_eq_of_rect hrV hVne
  have hrect2 : rect m b2 := by
    rw [hb2, ← hcolsV]
    exact rect_matMul _ _
  have htz : tilda.getD ell.toNat 0 = 0 := by
    rw [htilda, getD_map_of_lt _ _ _ hltσ _ 0]
    show (if (out.sigma.getD ell.toNat 0 ^ 2 - c) < 0 then 0
      else o.sqrt (out.sigma.getD ell.toNat 0 ^ 2 - c)) = 0
    have h00 : (out.sigma.getD ell.toNat 0) ^ 2 - c = 0 := by rw [hc]; ring
    rw [h00, if_neg (by norm_num)]
    exact hG.2
  have hellb2 : ell.toNat < b2.length := by
    rw [hb2len]
    have h1 : ell.toNat < b1.length := by omega
    have h2 : ell.toNat < m := by omega
    omega
  have hsum0 : ((b2.getD ell.toNat []).sum) = 0 := by
    rw [hb2]
    exact diag_mul_row_sum_zero tilda out.V hVlen ell.toNat (by omega) htz
  refine ⟨b2, _, rfl, hb2len, hrect2, ?_, ?_⟩
  · have hmem : ell.toNat ∈ (List.range b2.length).filter
        (fun i => round7 ((b2.getD i []).sum) = 0) := by
      rw [List.mem_filter]
      refine ⟨List.mem_range.mpr hellb2, ?_⟩
      rw [hsum0, round7_zero]
      simp
    exact List.ne_nil_of_mem hmem
  · intro i hi
    rw [List.mem_filter] at hi
    exact List.mem_range.mp hi.1

lemma bufRows_congr (fd fd' : FD) (h1 : fd'.ell = fd.ell) (h2 : fd'.k = fd.k)
    (sc : ℕ) (m : ℕ) : bufRows fd' sc m = bufRows fd sc m := by
  unfold bufRows
  rw [h1, h2]

/-- One `add_sample` on an initialized invariant state: it either fails
with the numpy broadcast error (leaving the state untouched), or succeeds,
preserves the invariant (with the shrink count bumped when the shrink
branch ran), increments `N` by exactly one and keeps `ell`, `k`, `M`. -/
lemma addBody_spec (o : Oracle) (hG : GoodOracle o) (fd : FD) (sc : ℕ)
    (row : Row) (hI : Inv fd sc) :
    (∀ e st, fd.addBody o row = .error (e, st) → e = .broadcast ∧ st = fd) ∧
    (∀ fd' s, fd.addBody o row = .ok (fd', s) →
      Inv fd' (sc + if s then 1 else 0) ∧
      fd'.N = fd.N + 1 ∧ fd'.M = fd.M ∧ fd'.ell = fd.ell ∧ fd'.k = fd.k ∧
      (s = false → (zrOf fd').length + 1 = (zrOf fd).length ∧
        (bOf fd').length = (bOf fd).length) ∧
      (s = true → (zrOf fd).length = 1)) := by
  obtain ⟨he, hk, hM, hb, hzr, hm, hrect, hblen, hzne, hzbound⟩ := hI
  obtain ⟨j, rest, hcons⟩ := List.exists_cons_of_ne_nil hzne
  rw [hcons] at hzr
  have hj : j < (bOf fd).length := hzbound j (by rw [hcons]; exact List.mem_cons_self ..)
  have hblen1 : 1 ≤ (bOf fd).length := by omega
  have hbne : bOf fd ≠ [] := List.ne_nil_of_length_pos (by omega)
  have hcols : cols (bOf fd) = mOf fd := cols_eq_of_rect hrect hbne
  have hlenℤ : fd.ell < ((bOf fd).length : ℤ) := by
    rw [hblen]
    unfold bufRows
    split_ifs <;> omega
  -- the three outcomes of the numpy row assignment
  have hsetpack : (∃ b1, setRow (bOf fd) j row = .ok b1 ∧
      b1.length = (bOf fd).length ∧ rect (mOf fd) b1) ∨
      setRow (bOf fd) j row = .error .broadcast := by
    rcases @setRow_cases (bOf fd) j row hj with ⟨h1, hs⟩ | ⟨h1, h2, hs⟩ | ⟨h1, h2, hs⟩
    · exact Or.inl ⟨_, hs, setRow_ok_length hs, setRow_ok_rect hrect hcols hs⟩
    · exact Or.inl ⟨_, hs, setRow_ok_length hs, setRow_ok_rect hrect hcols hs⟩
    · exact Or.inr hs
  rcases hsetpack with ⟨b1, hset, hb1len, hrect1⟩ | hset
  · -- row successfully written
    cases rest with
    | nil =>
      -- the free list is exhausted: shrink
      have hb1ne : b1 ≠ [] := List.ne_nil_of_length_pos (by omega)
      have hlen1 : fd.ell < (b1.length : ℤ) := by rw [hb1len]; exact hlenℤ
      obtain ⟨b2, zr2, hshr, hb2len, hrect2, hz2ne, hz2b⟩ :=
        shrinkStep_spec o hG fd.ell he (mOf fd) hm b1 hrect1 hb1ne hlen1
      have hred : fd.addBody o row =
          .ok ({ fd with
                   mat_b := some b2
                   zero_rows := some zr2
                   N := fd.N + 1 }, true) := by
        simp only [FD.addBody, hzr, hb, hset, List.isEmpty_nil, if_true]
        rw [hshr]
      constructor
      · intro e st h
        rw [hred] at h
        cases h
      · intro fd' s h
        rw [hred] at h
        injection h with h'
        injection h' with h1 h2
        subst h1
        subst h2
        refine ⟨?_, rfl, rfl, rfl, rfl, ?_, ?_⟩
        · refine ⟨he, hk, ?_, rfl, rfl, ?_, ?_, ?_, ?_, ?_⟩
          · simpa [mOf] using hM
          · simpa [mOf] using hm
          · simpa [mOf, bOf] using hrect2
          · show b2.length = bufRows fd (sc + 1) (mOf fd)
            rw [hb2len, hb1len, hblen]
            unfold bufRows
            have hsc : ¬(sc + 1 = 0) := by omega
            rw [if_neg hsc]
            by_cases h0 : sc = 0
            · rw [if_pos h0]
            · rw [if_neg h0, min_assoc, min_self]
          · simpa [zrOf] using hz2ne
          · intro i hi
            simp only [zrOf, bOf, Option.getD_some] at hi ⊢
            exact hz2b i hi
        · intro hc
          cases hc
        · intro _
          rw [hcons]
          rfl
    | cons r0 rtail =>
      have hred : fd.addBody o row =
          .ok ({ fd with
                   mat_b := some b1
                   zero_rows := some (r0 :: rtail)
                   N := fd.N + 1 }, false) := by
        simp only [FD.addBody, hzr, hb, hset, List.isEmpty_cons]
        rfl
      constructor
      · intro e st h
        rw [hred] at h
        cases h
      · intro fd' s h
        rw [hred] at h
        injection h with h'
        injection h' with h1 h2
        subst h1
        subst h2
        refine ⟨?_, rfl, rfl, rfl, rfl, ?_, by intro hc; cases hc⟩
        · refine ⟨he, hk, ?_, rfl, rfl, ?_, ?_, ?_, ?_, ?_⟩
          · simpa [mOf] using hM
          · simpa [mOf] using hm
          · simpa [mOf, bOf] using hrect1
          · show b1.length = bufRows fd sc (mOf fd)
            rw [hb1len, hblen]
          · simp [zrOf]
          · intro i hi
            simp only [zrOf, bOf, Option.getD_some] at hi ⊢
            rw [hb1len]
            exact hzbound i (by rw [hcons]; exact List.mem_cons_of_mem _ hi)
        · intro _
          constructor
          · rw [hcons]
            simp [zrOf]
          · simp only [bOf, Option.getD_some]
            rw [hb1len]
            simp [bOf]
  · -- numpy broadcast failure: state unchanged
    have hred : fd.addBody o row = .error (.broadcast, fd) := by
      simp only [FD.addBody, hzr, hb, hset]
    constructor
    · intro e st h
      rw [hred] at h
      injection h with h'
      injection h' with h1 h2
      exact ⟨h1.symm, h2.symm⟩
    · intro fd' s h
      rw [hred] at h
      cases h

/-- Any successful `addBody` increments `N` by exactly one and keeps
`ell`, `k` and `M` — with no assumption on the oracle or the state. -/
lemma addBody_N (o : Oracle) (fd : FD) (row : Row) (fd' : FD) (s : Bool)
    (h : fd.addBody o row = .ok (fd', s)) :
    fd'.N = fd.N + 1 ∧ fd'.M = fd.M ∧ fd'.ell = fd.ell ∧ fd'.k = fd.k := by
  cases hzr : fd.zero_rows with
  | none =>
    simp only [FD.addBody, hzr] at h
    cases h
  | some zr =>
    cases zr with
    | nil =>
      simp only [FD.addBody, hzr] at h
      cases h
    | cons j rest =>
      cases hb : fd.mat_b with
      | none =>
        simp only [FD.addBody, hzr, hb] at h
        cases h
      | some b =>
        cases hs : setRow b j row with
        | error e =>
          simp only [FD.addBody, hzr, hb, hs] at h
          cases h
        | ok b1 =>
          cases hr : rest.isEmpty with
          | false =>
            simp only [FD.addBody, hzr, hb, hs, hr, Bool.false_eq_true,
              if_false] at h
            injection h with h'
            injection h' with h1 h2
            subst h1
            exact ⟨rfl, rfl, rfl, rfl⟩
          | true =>
            simp only [FD.addBody, hzr, hb, hs, hr, if_true] at h
            cases hsh : shrinkStep o fd.ell b1 with
            | error e =>
              simp only [hsh] at h
              cases h
            | ok p =>
              obtain ⟨b2, zr2⟩ := p
              simp only [hsh, Except.ok.injEq, Prod.mk.injEq] at h
              obtain ⟨h1, h2⟩ := h
              subst h1
              exact ⟨rfl, rfl, rfl, rfl⟩

/-- `initialize` fails (with the state already carrying the new `M`) iff
`ell >= len(row)`. -/
lemma initState_err (fd : FD) (row : Row) (h : (row.length : ℤ) ≤ fd.ell) :
    fd.initState row = .error (.dimension, { fd with M := some row.length }) := by
  unfold FD.initState
  rw [if_pos h]

lemma initState_ok (fd : FD) (row : Row) (h : fd.ell < (row.length : ℤ))
    (h2 : 0 ≤ fd.ell + fd.k) :
    fd.initState row = .ok { fd with
      M := some row.length
      N := 0
      mat_b := some (zeroMat (fd.ell + fd.k).toNat row.length)
      zero_rows := some (List.range (fd.ell + fd.k).toNat) } := by
  simp only [FD.initState]
  rw [if_neg (by omega), if_neg (by omega)]

lemma fdNew_fresh (ell : ℤ) (k : ℤ) (he : 1 ≤ ell) (hk : 1 ≤ k) :
    Fresh (fdNew ell (some k)) :=
  ⟨rfl, rfl, rfl, rfl, he, hk⟩

/-- Successful lazy initialization establishes the invariant with zero
shrinks and the full free-row list. -/
lemma initState_Inv (fd : FD) (row : Row) (he : 1 ≤ fd.ell) (hk : 1 ≤ fd.k)
    (hm : fd.ell < (row.length : ℤ)) (fdI : FD)
    (h : fd.initState row = .ok fdI) :
    Inv fdI 0 ∧ fdI.N = 0 ∧ fdI.ell = fd.ell ∧ fdI.k = fd.k ∧
    fdI.M = some row.length ∧
    zrOf fdI = List.range (fd.ell + fd.k).toNat := by
  rw [initState_ok fd row hm (by omega)] at h
  injection h with h'
  subst h'
  have htn : 2 ≤ (fd.ell + fd.k).toNat := by omega
  refine ⟨⟨he, hk, rfl, rfl, rfl, ?_, ?_, ?_, ?_, ?_⟩, rfl, rfl, rfl, rfl, rfl⟩
  · simpa [mOf] using hm
  · show rect (row.length) (zeroMat (fd.ell + fd.k).toNat row.length)
    exact rect_zeroMat _ _
  · show (zeroMat (fd.ell + fd.k).toNat row.length).length = _
    rw [length_zeroMat]
    rfl
  · show List.range (fd.ell + fd.k).toNat ≠ []
    intro hc
    rw [List.range_eq_nil] at hc
    omega
  · intro i hi
    show i < (zeroMat (fd.ell + fd.k).toNat row.length).length
    rw [length_zeroMat]
    exact List.mem_range.mp hi

/-- One `add_sample` from an initialized invariant state (wrapper around
`addBody_spec`: lazy initialization is skipped). -/
lemma add_sample_init (o : Oracle) (hG : GoodOracle o) (fd : FD) (sc : ℕ)
    (row : Row) (hI : Inv fd sc) :
    (∀ e st, fd.add_sample o row = .error (e, st) →
      e = .broadcast ∧ st = fd) ∧
    (∀ fd' s, fd.add_sample o row = .ok (fd', s) →
      Inv fd' (sc + if s then 1 else 0) ∧
      fd'.N = fd.N + 1 ∧ fd'.M = fd.M ∧ fd'.ell = fd.ell ∧ fd'.k = fd.k ∧
      (s = false → (zrOf fd').length + 1 = (zrOf fd).length ∧
        (bOf fd').length = (bOf fd).length) ∧
      (s = true → (zrOf fd).length = 1)) := by
  have hinit : fd.is_initialized = true := by
    unfold FD.is_initialized
    rw [hI.2.2.1]
    rfl
  have heq : fd.add_sample o row = fd.addBody o row := by
    unfold FD.add_sample
    rw [hinit]
    rfl
  rw [heq]
  exact addBody_spec o hG fd sc row hI

/-- One `add_sample` from a fresh state: either the `ell >= M` dimension
failure, or success establishing the invariant. -/
lemma add_sample_fresh (o : Oracle) (hG : GoodOracle o) (fd : FD)
    (row : Row) (hF : Fresh fd) :
    (∀ e st, fd.add_sample o row = .error (e, st) →
      e = .dimension ∨ e = .broadcast) ∧
    (∀ fd' s, fd.add_sample o row = .ok (fd', s) →
      Inv fd' (if s then 1 else 0) ∧
      fd'.N = fd.N + 1 ∧ fd'.ell = fd.ell ∧ fd'.k = fd.k ∧
      fd'.M = some row.length ∧
      (s = false →
        (zrOf fd').length + 1 = (fd.ell + fd.k).toNat) ∧
      (s = true → (fd.ell + fd.k).toNat = 1)) := by
  obtain ⟨hM, hmb, hzr, hN, he, hk⟩ := hF
  have hinit : fd.is_initialized = false := by
    unfold FD.is_initialized
    rw [hM]
    rfl
  have heq : fd.add_sample o row =
      match fd.initState row with
      | .error e => .error e
      | .ok fdI => fdI.addBody o row := by
    unfold FD.add_sample
    rw [hinit]
    rfl
  by_cases hm : fd.ell < (row.length : ℤ)
  · -- initialization succeeds
    obtain ⟨hI, hIN, hIell, hIk, hIM, hIzr⟩ :=
      initState_Inv fd row he hk hm _ (initState_ok fd row hm (by omega))
    rw [initState_ok fd row hm (by omega)] at heq
    obtain ⟨herr, hok⟩ := addBody_spec o hG _ 0 row hI
    constructor
    · intro e st h
      rw [heq] at h
      exact Or.inr (herr e st h).1
    · intro fd' s h
      rw [heq] at h
      obtain ⟨hI', hN', hM', hell', hk', hf', ht'⟩ := hok fd' s h
      refine ⟨by simpa using hI', ?_, ?_, ?_, ?_, ?_, ?_⟩
      · rw [hN', hIN, hN]
      · rw [hell', hIell]
      · rw [hk', hIk]
      · rw [hM', hIM]
      · intro hs
        have := (hf' hs).1
        rw [hIzr, List.length_range] at this
        rw [hIell, hIk] at this
        exact this
      · intro hs
        have := ht' hs
        rw [hIzr, List.length_range] at this
        rw [hIell, hIk] at this
        exact this
  · -- ell >= len(row): DimensionError
    rw [initState_err fd row (by omega)] at heq
    constructor
    · intro e st h
      rw [heq] at h
      injection h with h'
      injection h' with h1 h2
      exact Or.inl h1.symm
    · intro fd' s h
      rw [heq] at h
      cases h

lemma addSeqC_eq (o : Oracle) (fd : FD) (rows : List Row) :
    addSeqC o fd rows = addSeqFrom o (fd, 0) rows := rfl

lemma addSeqFrom_nil (o : Oracle) (p : FD × ℕ) :
    addSeqFrom o p [] = .ok p := rfl

lemma addSeqFrom_cons (o : Oracle) (p : FD × ℕ) (row : Row)
    (rows : List Row) :
    addSeqFrom o p (row :: rows) =
      match p.1.add_sample o row with
      | .error e => .error e
      | .ok q => addSeqFrom o (q.1, p.2 + (if q.2 then 1 else 0)) rows := by
  show List.foldlM _ _ _ = _
  rw [List.foldlM_cons]
  cases p.1.add_sample o row with
  | error e => rfl
  | ok q => rfl

/-- Any `initialize` that succeeds yields `N = 0` and records `M`. -/
lemma initState_N (fd : FD) (row : Row) (fdI : FD)
    (h : fd.initState row = .ok fdI) :
    fdI.N = 0 ∧ fdI.M = some row.length := by
  simp only [FD.initState] at h
  split_ifs at h
  injection h with h'
  subst h'
  exact ⟨rfl, rfl⟩

/-- Every successful `add_sample` increments `N` by exactly one (with no
assumption on the oracle), provided an uninitialized engine has `N = 0`
(true of freshly constructed or reset engines). -/
lemma add_sample_N (o : Oracle) (fd : FD) (row : Row) (fd' : FD) (s : Bool)
    (h0 : fd.M = none → fd.N = 0) (h : fd.add_sample o row = .ok (fd', s)) :
    fd'.N = fd.N + 1 ∧ fd'.M.isSome = true := by
  cases hM : fd.M with
  | some m =>
    have hinit : fd.is_initialized = true := by
      unfold FD.is_initialized
      rw [hM]
      rfl
    have heq : fd.add_sample o row = fd.addBody o row := by
      unfold FD.add_sample
      rw [hinit]
      rfl
    rw [heq] at h
    obtain ⟨h1, h2, _, _⟩ := addBody_N o fd row fd' s h
    rw [h2, hM]
    exact ⟨h1, rfl⟩
  | none =>
    have hinit : fd.is_initialized = false := by
      unfold FD.is_initialized
      rw [hM]
      rfl
    have heq : fd.add_sample o row =
        match fd.initState row with
        | .error e => .error e
        | .ok fdI => fdI.addBody o row := by
      unfold FD.add_sample
      rw [hinit]
      rfl
    rw [heq] at h
    cases hin : fd.initState row with
    | error e =>
      rw [hin] at h
      cases h
    | ok fdI =>
      rw [hin] at h
      obtain ⟨hN0, hMI⟩ := initState_N fd row fdI hin
      obtain ⟨h1, h2, _, _⟩ := addBody_N o fdI row fd' s h
      constructor
      · rw [h1, hN0, h0 hM]
      · rw [h2, hMI]
        rfl

/-- `N` counts the adds: after a successful sequence, `N` has increased by
exactly the number of rows (for any oracle whatsoever). -/
lemma addSeqFrom_N (o : Oracle) :
    ∀ (rows : List Row) (p q : FD × ℕ),
      (p.1.M = none → p.1.N = 0) → addSeqFrom o p rows = .ok q →
      q.1.N = p.1.N + rows.length := by
  intro rows
  induction rows with
  | nil =>
    intro p q h0 h
    rw [addSeqFrom_nil] at h
    injection h with h'
    rw [← h']
    rfl
  | cons row rows ih =>
    intro p q h0 h
    rw [addSeqFrom_cons] at h
    cases hstep : p.1.add_sample o row with
    | error e =>
      rw [hstep] at h
      cases h
    | ok r =>
      rw [hstep] at h
      obtain ⟨hN, hM⟩ := add_sample_N o p.1 row r.1 r.2 h0 hstep
      have := ih (r.1, p.2 + (if r.2 then 1 else 0)) q
        (fun hc => by rw [hc] at hM; cases hM) h
      rw [this, hN, List.length_cons]
      omega

/-- No run from a fresh or invariant state ever fails with an
`IndexError`: the only possible failures are the lazy-initialization
dimension check and numpy's broadcast error. -/
lemma addSeqFrom_errors (o : Oracle) (hG : GoodOracle o) :
    ∀ (rows : List Row) (p : FD × ℕ),
      (Fresh p.1 ∨ ∃ sc, Inv p.1 sc) →
      ∀ e st, addSeqFrom o p rows = .error (e, st) →
        e = .dimension ∨ e = .broadcast := by
  intro rows
  induction rows with
  | nil =>
    intro p hp e st h
    rw [addSeqFrom_nil] at h
    cases h
  | cons row rows ih =>
    intro p hp e st h
    rw [addSeqFrom_cons] at h
    cases hstep : p.1.add_sample o row with
    | error ep =>
      rw [hstep] at h
      injection h with h'
      rw [h'] at hstep
      rcases hp with hF | ⟨sc, hI⟩
      · exact (add_sample_fresh o hG p.1 row hF).1 e st hstep
      · exact Or.inr ((add_sample_init o hG p.1 sc row hI).1 e st hstep).1
    | ok r =>
      rw [hstep] at h
      have hnext : Fresh r.1 ∨ ∃ sc, Inv r.1 sc := by
        rcases hp with hF | ⟨sc, hI⟩
        · exact Or.inr ⟨_, ((add_sample_fresh o hG p.1 row hF).2 r.1 r.2
            (by rw [hstep])).1⟩
        · exact Or.inr ⟨_, ((add_sample_init o hG p.1 sc row hI).2 r.1 r.2
            (by rw [hstep])).1⟩
      exact ih _ hnext e st h

lemma ite_count_true {s : Bool} (h : s = true) :
    (if s = true then (1 : ℕ) else 0) = 1 := by
  rw [h]
  simp

lemma ite_count_false {s : Bool} (h : s = false) :
    (if s = true then (1 : ℕ) else 0) = 0 := by
  rw [h]
  simp

/-- One step preserves `Reach` (when the row has the uniform length `m`). -/
lemma reach_step (o : Oracle) (hG : GoodOracle o) (ell k : ℤ) (m : ℕ)
    (p : FD × ℕ) (row : Row) (hrow : row.length = m) (hR : Reach ell k m p)
    (r : FD × Bool) (h : p.1.add_sample o row = .ok r) :
    Reach ell k m (r.1, p.2 + if r.2 then 1 else 0) := by
  obtain ⟨hell, hk, hcase⟩ := hR
  rcases hcase with ⟨hF, hc0⟩ | ⟨hI, hM, hz0, hz1⟩
  · -- first add: lazy initialization
    obtain ⟨hI', hN', hell', hk', hM', hf', ht'⟩ :=
      (add_sample_fresh o hG p.1 row hF).2 r.1 r.2 h
    refine ⟨by rw [hell', hell], by rw [hk', hk], Or.inr ⟨?_, ?_, ?_, ?_⟩⟩
    · show Inv r.1 (p.2 + if r.2 = true then 1 else 0)
      rw [hc0]
      simpa using hI'
    · rw [hM', hrow]
    · intro hz
      have hz' : (p.2 + if r.2 = true then 1 else 0) = 0 := hz
      have hs : r.2 = false := by
        cases hs : r.2
        · rfl
        · rw [ite_count_true hs] at hz'
          omega
      have h1 := hf' hs
      rw [hell, hk] at h1
      show r.1.N + (zrOf r.1).length = (ell + k).toNat
      rw [hN', hF.2.2.2.1]
      omega
    · intro hz
      have hz' : 1 ≤ p.2 + if r.2 = true then 1 else 0 := hz
      have hs : r.2 = true := by
        cases hs : r.2
        · rw [ite_count_false hs, hc0] at hz'
          omega
        · rfl
      have h1 := ht' hs
      rw [hell, hk] at h1
      show (ell + k).toNat + (p.2 + if r.2 = true then 1 else 0) ≤ r.1.N + 1
      rw [hc0, ite_count_true hs, hN', hF.2.2.2.1]
      omega
  · -- subsequent add on an initialized state
    obtain ⟨hI', hN', hM', hell', hk', hf', ht'⟩ :=
      (add_sample_init o hG p.1 p.2 row hI).2 r.1 r.2 h
    refine ⟨by rw [hell', hell], by rw [hk', hk], Or.inr ⟨hI', ?_, ?_, ?_⟩⟩
    · rw [hM', hM]
    · intro hz
      have hz' : (p.2 + if r.2 = true then 1 else 0) = 0 := hz
      have hs : r.2 = false := by
        cases hs : r.2
        · rfl
        · rw [ite_count_true hs] at hz'
          omega
      rw [ite_count_false hs] at hz'
      obtain ⟨h1, _⟩ := hf' hs
      have h2 := hz0 (by omega)
      show r.1.N + (zrOf r.1).length = (ell + k).toNat
      rw [hN']
      omega
    · intro hz
      have hz' : 1 ≤ p.2 + if r.2 = true then 1 else 0 := hz
      show (ell + k).toNat + (p.2 + if r.2 = true then 1 else 0) ≤ r.1.N + 1
      by_cases hs : r.2 = true
      · rw [ite_count_true hs]
        have h3 := ht' hs
        rcases Nat.eq_zero_or_pos p.2 with h0 | hpos
        · have h2 := hz0 h0
          have h4 : 1 ≤ (zrOf p.1).length := by
            have hzne := hI.2.2.2.2.2.2.2.2.1
            cases hzz : zrOf p.1 with
            | nil => exact absurd hzz hzne
            | cons a l =>
              simp
          rw [hN', h0]
          omega
        · have h2 := hz1 hpos
          rw [hN']
          omega
      · have hs' : r.2 = false := by
          rwa [Bool.not_eq_true] at hs
        rw [ite_count_false hs'] at hz' ⊢
        have h2 := hz1 (by omega)
        rw [hN']
        omega

/-- `Reach` propagated along a whole successful run, with `N` counting the
rows. -/
lemma addSeqFrom_reach (o : Oracle) (hG : GoodOracle o) (ell k : ℤ) (m : ℕ) :
    ∀ (rows : List Row) (p q : FD × ℕ),
      (∀ r ∈ rows, r.length = m) → Reach ell k m p →
      addSeqFrom o p rows = .ok q →
      Reach ell k m q ∧ q.1.N = p.1.N + rows.length := by
  intro rows
  induction rows with
  | nil =>
    intro p q _ hR h
    rw [addSeqFrom_nil] at h
    injection h with h'
    rw [← h']
    exact ⟨hR, rfl⟩
  | cons row rows ih =>
    intro p q hlen hR h
    rw [addSeqFrom_cons] at h
    cases hstep : p.1.add_sample o row with
    | error e =>
      rw [hstep] at h
      cases h
    | ok r =>
      rw [hstep] at h
      have hR' := reach_step o hG ell k m p row
        (hlen row (List.mem_cons_self ..)) hR r hstep
      obtain ⟨hRq, hNq⟩ := ih _ q (fun r hr => hlen r (List.mem_cons_of_mem _ hr)) hR' h
      refine ⟨hRq, ?_⟩
      have h0p : p.1.M = none → p.1.N = 0 := by
        intro hM
        rcases hR.2.2 with ⟨hF, _⟩ | ⟨hI, _⟩
        · exact hF.2.2.2.1
        · rw [hI.2.2.1] at hM
          cases hM
      have hr1 : r.1.N = p.1.N + 1 := (add_sample_N o p.1 row r.1 r.2 h0p hstep).1
      have hNq' : q.1.N = r.1.N + rows.length := hNq
      rw [List.length_cons]
      omega

/-- C4 (confirmed): `finalize` (`get_result`) fails with
`ConfigurationError` if and only if `N <= ell + k` at call time; in
particular it raises at `N = ell + k` exactly, and at `N = ell + k + 1`
on an engine with an allocated buffer it succeeds and returns the first
`ell` rows of the current buffer. -/
theorem C4_get_result (fd : FD) :
    (fd.get_result false = .error (.configuration, fd) ↔
      (fd.N : ℤ) ≤ fd.ell + fd.k) ∧
    (∀ b, fd.mat_b = some b → (fd.N : ℤ) = fd.ell + fd.k + 1 →
      fd.get_result false = .ok (pySlice b fd.ell, fd)) := by
  constructor
  · constructor
    · intro h
      by_contra hc
      unfold FD.get_result at h
      rw [if_neg hc] at h
      cases hb : fd.mat_b with
      | none =>
        rw [hb] at h
        simp at h
      | some b =>
        rw [hb] at h
        cases h
    · intro h
      unfold FD.get_result
      rw [if_pos h]
  · intro b hb hN
    unfold FD.get_result
    rw [if_neg (by omega), hb]
    rfl

/-- C4 witness: a concrete engine with `ell = k = 1`, `N = 3 = ell+k+1`:
`get_result` succeeds with the first row. -/
theorem C4_get_result_witness :
    FD.get_result ⟨1, 1, some 2, 3, some [[1,2],[3,4]], some [1]⟩ false =
      .ok ([[1,2]], ⟨1, 1, some 2, 3, some [[1,2],[3,4]], some [1]⟩) :=
  (C4_get_result _).2 [[1,2],[3,4]] rfl (by decide)

/-- C5 counterexample: the constructor performs NO validation — with
`ell = 0` it succeeds and returns an ordinary uninitialized engine, and
that engine even runs `add` twice (through two shrinks, against genuine
SVDs) and `finalize` successfully.  No `ConfigurationError` is raised
anywhere. -/
theorem C5_construction_counterexample :
    fdNew 0 none = ⟨0, 1, none, 0, none, none⟩ ∧
    isSVDOf [[1,0]] ⟨[[1]], [1], [[1,0]]⟩ ∧
    isSVDOf [[2,0]] ⟨[[1]], [2], [[1,0]]⟩ ∧
    addSeq oC5 (fdNew 0 none) [[1,0],[2,0]] =
      .ok ⟨0, 1, some 2, 2, some [[0,0]], some [0]⟩ ∧
    FD.get_result ⟨0, 1, some 2, 2, some [[0,0]], some [0]⟩ false =
      .ok ([], ⟨0, 1, some 2, 2, some [[0,0]], some [0]⟩) :=
  ⟨rfl, by decide, by decide, by decide, by decide⟩

/-- C5 (corrected): construction never fails.  `FrequentDirection(ell, k)`
returns, for every integer `ell` (including `ell <= 0`), an uninitialized
engine storing `ell` and `k` (with `k` defaulting to `2*ell + 1`); the
only validation involving `ell` in the code is the `ell >= M` check at
lazy initialization. -/
theorem C5_construction_amended (ell : ℤ) (k : ℤ) :
    fdNew ell (some k) = ⟨ell, k, none, 0, none, none⟩ ∧
    fdNew ell none = ⟨ell, 2 * ell + 1, none, 0, none, none⟩ :=
  ⟨rfl, rfl⟩

/-- C6 (code bug): the code performs no row-length check.  Evaluating the
code at the failing input: with `M = 3` established, `add([7])` (length 1)
does NOT raise — numpy broadcasts the single value across the whole row,
silently writing `[7,7,7]` and incrementing `N`.  (For a length that is
neither `M` nor 1, numpy's broadcast `ValueError` is raised and the state
is left unchanged, as the last conjunct shows.) -/
theorem C6_broadcast_bug :
    addSeq trivOracle (fdNew 1 (some 2)) [[1,2,3]] = .ok fdC6 ∧
    fdC6.add_sample trivOracle [7] =
      .ok (⟨1, 2, some 3, 2, some [[1,2,3],[7,7,7],[0,0,0]], some [2]⟩, false) ∧
    fdC6.add_sample trivOracle [1,2] = .error (.broadcast, fdC6) :=
  ⟨by decide, by decide, by decide⟩

/-- C7 (confirmed): the first `add` on an uninitialized engine initializes
lazily with `M = len(row)`: it fails with the dimension error when
`ell >= M` (both through `initialize` and through `add_sample`), and
otherwise allocates the `(ell+k) × M` zero buffer, sets `freeRowIndices`
to `[0, …, ell+k-1]` and resets `N` to `0` — all before the row is
inserted. -/
theorem C7_lazy_init (fd : FD) (row : Row) (o : Oracle) :
    ((row.length : ℤ) ≤ fd.ell →
      fd.initState row = .error (.dimension, { fd with M := some row.length })) ∧
    (fd.ell < (row.length : ℤ) → 0 ≤ fd.ell + fd.k →
      fd.initState row = .ok { fd with
        M := some row.length
        N := 0
        mat_b := some (zeroMat (fd.ell + fd.k).toNat row.length)
        zero_rows := some (List.range (fd.ell + fd.k).toNat) }) ∧
    (fd.M = none → (row.length : ℤ) ≤ fd.ell →
      fd.add_sample o row = .error (.dimension, { fd with M := some row.length })) := by
  refine ⟨initState_err fd row, initState_ok fd row, ?_⟩
  intro hM h
  have hinit : fd.is_initialized = false := by
    unfold FD.is_initialized
    rw [hM]
    rfl
  have heq : fd.add_sample o row =
      match fd.initState row with
      | .error e => .error e
      | .ok fdI => fdI.addBody o row := by
    unfold FD.add_sample
    rw [hinit]
    rfl
  rw [heq, initState_err fd row h]

/-- C7 witness: the spec's own example — `ell = 5` with a first row of
length 5 raises the dimension error; a first row of length 6 initializes
(`16 × 6` zero buffer, `freeRowIndices = [0, …, 15]`, `N = 0`). -/
theorem C7_lazy_init_witness :
    (fdNew 5 none).initState [1,2,3,4,5] =
      .error (.dimension, ⟨5, 11, some 5, 0, none, none⟩) ∧
    (fdNew 5 none).add_sample trivOracle [1,2,3,4,5] =
      .error (.dimension, ⟨5, 11, some 5, 0, none, none⟩) ∧
    (fdNew 5 none).initState [1,2,3,4,5,6] =
      .ok ⟨5, 11, some 6, 0, some (zeroMat 16 6), some (List.range 16)⟩ :=
  ⟨(C7_lazy_init (fdNew 5 none) [1,2,3,4,5] trivOracle).1 (by decide),
   (C7_lazy_init (fdNew 5 none) [1,2,3,4,5] trivOracle).2.2 rfl (by decide),
   (C7_lazy_init (fdNew 5 none) [1,2,3,4,5,6] trivOracle).2.1 (by decide) (by decide)⟩

/-- C9 (confirmed): `finalize(reset=true)` returns the first `ell` rows
and leaves the engine in exactly the just-constructed state with the same
`ell` and `k` (so `is_initialized` is false), and any subsequent `add`
sequence behaves identically to the same sequence on a newly constructed
engine with that `ell` and `k`. -/
theorem C9_reset (fd : FD) (b : Mat) (hb : fd.mat_b = some b)
    (hN : fd.ell + fd.k < (fd.N : ℤ)) :
    fd.get_result true = .ok (pySlice b fd.ell, fdNew fd.ell (some fd.k)) ∧
    (fdNew fd.ell (some fd.k)).is_initialized = false ∧
    (∀ (o : Oracle) (rows : List Row) (res : Mat) (fd' : FD),
      fd.get_result true = .ok (res, fd') →
      addSeqC o fd' rows = addSeqC o (fdNew fd.ell (some fd.k)) rows) := by
  have h1 : fd.get_result true =
      .ok (pySlice b fd.ell, fdNew fd.ell (some fd.k)) := by
    unfold FD.get_result
    rw [if_neg (by omega), hb]
    rfl
  refine ⟨h1, rfl, ?_⟩
  intro o rows res fd' h
  rw [h1] at h
  injection h with h'
  injection h' with _ h2
  rw [← h2]

/-- C9 witness: a concrete engine reset after three adds. -/
theorem C9_reset_witness :
    FD.get_result ⟨1, 1, some 2, 3, some [[1,2],[3,4]], some [1]⟩ true =
      .ok ([[1,2]], fdNew 1 (some 1)) ∧
    (fdNew 1 (some 1)).is_initialized = false :=
  ⟨(C9_reset ⟨1, 1, some 2, 3, some [[1,2],[3,4]], some [1]⟩ [[1,2],[3,4]]
      rfl (by decide)).1,
   (C9_reset ⟨1, 1, some 2, 3, some [[1,2],[3,4]], some [1]⟩ [[1,2],[3,4]]
      rfl (by decide)).2.1⟩

/-- C8 (confirmed): for every `j >= 0`, after `j` successful `add` calls
on a fresh engine the row counter `N` equals `j`; every successful `add`
on an initialized engine increments `N` by exactly 1 (whether or not a
shrink occurred) — `N` is never decremented by `add`.  This holds for an
arbitrary SVD oracle. -/
theorem C8_N_counts :
    (∀ (o : Oracle) (ell : ℤ) (k : Option ℤ) (rows : List Row) (fd' : FD),
      addSeq o (fdNew ell k) rows = .ok fd' → fd'.N = rows.length) ∧
    (∀ (o : Oracle) (fd : FD) (row : Row) (fd' : FD) (s : Bool),
      fd.is_initialized = true → fd.add_sample o row = .ok (fd', s) →
      fd'.N = fd.N + 1) := by
  constructor
  · intro o ell k rows fd' h
    unfold addSeq at h
    cases hC : addSeqC o (fdNew ell k) rows with
    | error e =>
      rw [hC] at h
      cases h
    | ok q =>
      rw [hC] at h
      injection h with h'
      rw [addSeqC_eq] at hC
      have hN := addSeqFrom_N o rows (fdNew ell k, 0) q (fun _ => rfl) hC
      rw [← h']
      rw [hN]
      show 0 + rows.length = rows.length
      omega
  · intro o fd row fd' s hinit h
    have heq : fd.add_sample o row = fd.addBody o row := by
      unfold FD.add_sample
      rw [hinit]
      rfl
    rw [heq] at h
    exact (addBody_N o fd row fd' s h).1

/-- C8 witness: one add on a fresh `ell = k = 1` engine gives `N = 1`
(the oracle is irrelevant: no shrink fires). -/
theorem C8_N_counts_witness :
    addSeq trivOracle (fdNew 1 (some 1)) [[1,0]] =
      .ok ⟨1, 1, some 2, 1, some [[1,0],[0,0]], some [1]⟩ ∧
    FD.N ⟨1, 1, some 2, 1, some [[1,0],[0,0]], some [1]⟩ = 1 :=
  ⟨by decide,
   C8_N_counts.1 trivOracle 1 (some 1) [[1,0]]
     ⟨1, 1, some 2, 1, some [[1,0],[0,0]], some [1]⟩ (by decide)⟩

/-- C10 (confirmed): in any `add` sequence starting from a fresh engine
with `1 <= ell` and `1 <= k` (so `ell < min(ell+k, M)` once `M` is
established), under the numpy SVD contract the read of `zero_rows[0]`
never hits an empty list — after every shrink the recomputed list
contains at least row `ell`, whose shrunk singular value is exactly zero.
Concretely: a run can only fail with the lazy-initialization dimension
error or numpy's broadcast error, never with an `IndexError`. -/
theorem C10_no_index_failure (o : Oracle) (ell k : ℤ)
    (hG : GoodOracle o) (he : 1 ≤ ell) (hk : 1 ≤ k) :
    ∀ (rows : List Row) (e : Err) (st : FD),
      addSeq o (fdNew ell (some k)) rows = .error (e, st) →
      e ≠ .indexError := by
  intro rows e st h hc
  subst hc
  unfold addSeq at h
  cases hC : addSeqC o (fdNew ell (some k)) rows with
  | error ep =>
    rw [hC] at h
    injection h with h'
    rw [h'] at hC
    rw [addSeqC_eq] at hC
    have := addSeqFrom_errors o hG rows (fdNew ell (some k), 0)
      (Or.inl (fdNew_fresh ell k he hk)) .indexError st hC
    rcases this with h1 | h1 <;> cases h1
  | ok q =>
    rw [hC] at h
    cases h

/-- C10 witness: a concrete aborted run — the only error raised is the
broadcast error (row of length 3 into an `M = 2` engine), which the
theorem then separates from `IndexError`. -/
theorem C10_no_index_failure_witness :
    addSeq trivOracle (fdNew 1 (some 1)) [[1,0],[1,2,3]] =
      .error (.broadcast, ⟨1, 1, some 2, 1, some [[1,0],[0,0]], some [1]⟩) ∧
    Err.broadcast ≠ Err.indexError :=
  ⟨by decide,
   C10_no_index_failure trivOracle 1 1 goodOracle_triv (by decide) (by decide)
     [[1,0],[1,2,3]] .broadcast
     ⟨1, 1, some 2, 1, some [[1,0],[0,0]], some [1]⟩ (by decide)⟩

/-- C2 (confirmed): when an `add` call fills the last free buffer row
(the free list is the singleton `[j]`), the code performs exactly the
shrink the spec describes on the buffer with the row written at `j`:
threshold `σ[ell]²`, `σ̃ᵢ = sqrt(max(0, σᵢ² − σ[ell]²))`, buffer
`diag(σ̃) · Vᵀ`, and the free list recomputed by the 7-digit row-sum
zero test — and `N` is incremented. -/
theorem C2_shrink_described (o : Oracle) (fd : FD) (sc : ℕ) (row : Row)
    (j : ℕ) (hG : GoodOracle o) (hI : Inv fd sc) (hzr : zrOf fd = [j])
    (hrow : row.length = mOf fd) :
    fd.add_sample o row =
      .ok ({ fd with
        mat_b := some (shrinkDescribed o fd.ell.toNat ((bOf fd).set j row)).1
        zero_rows := some (shrinkDescribed o fd.ell.toNat ((bOf fd).set j row)).2
        N := fd.N + 1 }, true) := by
  obtain ⟨he, hk, hM, hb, hzrE, hm, hrect, hblen, hzne, hzbound⟩ := hI
  rw [hzr] at hzrE
  have hj : j < (bOf fd).length :=
    hzbound j (by rw [hzr]; exact List.mem_cons_self ..)
  have hbne : bOf fd ≠ [] := List.ne_nil_of_length_pos (by omega)
  have hcols : cols (bOf fd) = mOf fd := cols_eq_of_rect hrect hbne
  have hset : setRow (bOf fd) j row = .ok ((bOf fd).set j row) := by
    unfold setRow
    rw [if_pos hj, if_pos (by rw [hrow, hcols])]
  have hrect1 : rect (mOf fd) ((bOf fd).set j row) :=
    setRow_ok_rect hrect hcols hset
  have hb1len : ((bOf fd).set j row).length = (bOf fd).length :=
    List.length_set ..
  have hb1ne : (bOf fd).set j row ≠ [] :=
    List.ne_nil_of_length_pos (by omega)
  obtain ⟨hσ, hV, hrV, hdesc, hnn⟩ := hG.1 ((bOf fd).set j row)
  have hcols1 : cols ((bOf fd).set j row) = mOf fd :=
    cols_eq_of_rect hrect1 hb1ne
  have hlenℤ : fd.ell < (((bOf fd).set j row).length : ℤ) := by
    rw [hb1len, hblen]
    unfold bufRows
    split_ifs <;> omega
  have hlt : fd.ell.toNat < (o.svd ((bOf fd).set j row)).sigma.length := by
    rw [hσ, hcols1]
    have h1 : fd.ell.toNat < ((bOf fd).set j row).length := by omega
    have h2 : fd.ell.toNat < mOf fd := by omega
    omega
  have hinit : fd.is_initialized = true := by
    unfold FD.is_initialized
    rw [hM]
    rfl
  have heq : fd.add_sample o row = fd.addBody o row := by
    unfold FD.add_sample
    rw [hinit]
    rfl
  rw [heq]
  simp only [FD.addBody, hzrE, hb, hset, List.isEmpty_nil, if_true]
  rw [shrinkStep_eq o fd.ell ((bOf fd).set j row) (by omega) hlt hV]
  have htilda :
      ((o.svd ((bOf fd).set j row)).sigma.map fun s =>
        (fun d => if d < 0 then 0 else o.sqrt d)
          (s ^ 2 - ((o.svd ((bOf fd).set j row)).sigma.getD fd.ell.toNat 0) ^ 2)) =
      ((o.svd ((bOf fd).set j row)).sigma.map fun s =>
        o.sqrt (max 0
          (s ^ 2 - ((o.svd ((bOf fd).set j row)).sigma.getD fd.ell.toNat 0) ^ 2))) := by
    apply List.map_congr_left
    intro s _
    by_cases hd : s ^ 2 -
        ((o.svd ((bOf fd).set j row)).sigma.getD fd.ell.toNat 0) ^ 2 < 0
    · show (if _ < 0 then (0 : ℚ) else _) = _
      rw [if_pos hd, max_eq_left (le_of_lt hd), hG.2]
    · show (if _ < 0 then (0 : ℚ) else _) = _
      rw [if_neg hd, max_eq_right (le_of_not_lt hd)]
  simp only [shrinkDescribed]
  rw [htilda]

/-- C2 witness: a concrete engine one row short of full, fed its last
row; every hypothesis is discharged by computation and the add performs
the described shrink. -/
theorem C2_shrink_described_witness :
    Inv ⟨1, 1, some 2, 1, some [[3,4],[0,0]], some [1]⟩ 0 ∧
    FD.add_sample oC2 ⟨1, 1, some 2, 1, some [[3,4],[0,0]], some [1]⟩ [0,0] =
      .ok ({ (⟨1, 1, some 2, 1, some [[3,4],[0,0]], some [1]⟩ : FD) with
        mat_b := some (shrinkDescribed oC2 1 [[3,4],[0,0]]).1
        zero_rows := some (shrinkDescribed oC2 1 [[3,4],[0,0]]).2
        N := 2 }, true) :=
  ⟨by decide,
   C2_shrink_described oC2 ⟨1, 1, some 2, 1, some [[3,4],[0,0]], some [1]⟩ 0
     [0,0] 1
     (tableO_good _ _ (by decide) (by decide))
     (by decide) rfl rfl⟩

/-- C1 counterexample: with `ell = 1`, the default `k = 2*ell+1 = 3` and
`M = 2` (all "valid": `1 ≤ ell < M`), after `ell+k+1 = 5` adds the buffer
has shape `2 × 2`, NOT `(ell+k) × M = 4 × 2` — the reduced SVD
(`full_matrices=False`) shrinks a fat buffer to `min(ell+k, M)` rows —
and moreover TWO shrinks have occurred, not exactly one.  The two SVDs
supplied by the oracle are certified genuine. -/
theorem C1_shape_counterexample :
    isSVDOf [[3,4],[0,0],[0,0],[0,0]]
      ⟨[[1,0],[0,1],[0,0],[0,0]], [5,0], [[3/5,4/5],[4/5,-3/5]]⟩ ∧
    isSVDOf [[3,4],[0,0]]
      ⟨[[1,0],[0,1]], [5,0], [[3/5,4/5],[4/5,-3/5]]⟩ ∧
    addSeqC oC1 (fdNew 1 none) [[3,4],[0,0],[0,0],[0,0],[0,0]] =
      .ok (⟨1, 3, some 2, 5, some [[3,4],[0,0]], some [1]⟩, 2) ∧
    (bOf ⟨1, 3, some 2, 5, some [[3,4],[0,0]], some [1]⟩).length = 2 ∧
    cols (bOf ⟨1, 3, some 2, 5, some [[3,4],[0,0]], some [1]⟩) = 2 ∧
    ¬((2 : ℕ) = 1 + 3) ∧
    ¬((2 : ℕ) = 1) :=
  ⟨by decide, by decide, by decide, by decide, by decide, by decide, by decide⟩

/-- C1 (corrected): once initialized, the buffer keeps `M` columns and
has `(ell+k)` rows until the first shrink and `min(ell+k, M)` rows from
the first shrink on (so the shape is `(ell+k) × M` forever iff
`ell+k ≤ M`); for all valid `ell, k, M` with `ell < M`, after exactly
`ell+k` adds exactly one shrink has occurred, and after `ell+k+1` adds at
least one shrink has occurred (a second one is possible) and the shape is
`min(ell+k, M) × M`. -/
theorem C1_shape_amended (o : Oracle) (ell k : ℤ) (m : ℕ)
    (hG : GoodOracle o) (he : 1 ≤ ell) (hk : 1 ≤ k) (hm : ell < (m : ℤ)) :
    (∀ (rows : List Row) (fd : FD) (n : ℕ),
      (∀ r ∈ rows, r.length = m) → rows ≠ [] →
      addSeqC o (fdNew ell (some k)) rows = .ok (fd, n) →
      (bOf fd).length =
        (if n = 0 then (ell + k).toNat else min (ell + k).toNat m) ∧
      cols (bOf fd) = m) ∧
    (∀ (rows : List Row) (fd : FD) (n : ℕ),
      (∀ r ∈ rows, r.length = m) → rows.length = (ell + k).toNat →
      addSeqC o (fdNew ell (some k)) rows = .ok (fd, n) → n = 1) ∧
    (∀ (rows : List Row) (fd : FD) (n : ℕ),
      (∀ r ∈ rows, r.length = m) → rows.length = (ell + k).toNat + 1 →
      addSeqC o (fdNew ell (some k)) rows = .ok (fd, n) → 1 ≤ n) := by
  have hstart : Reach ell k m (fdNew ell (some k), 0) :=
    ⟨rfl, rfl, Or.inl ⟨fdNew_fresh ell k he hk, rfl⟩⟩
  have main : ∀ (rows : List Row) (fd : FD) (n : ℕ),
      (∀ r ∈ rows, r.length = m) →
      addSeqC o (fdNew ell (some k)) rows = .ok (fd, n) →
      Reach ell k m (fd, n) ∧ fd.N = rows.length := by
    intro rows fd n hlen h
    rw [addSeqC_eq] at h
    obtain ⟨hR, hN⟩ := addSeqFrom_reach o hG ell k m rows _ (fd, n) hlen hstart h
    refine ⟨hR, ?_⟩
    have : fd.N = (fdNew ell (some k)).N + rows.length := hN
    rw [this]
    show 0 + rows.length = rows.length
    omega
  have notFresh : ∀ (fd : FD) (n : ℕ), Reach ell k m (fd, n) → 1 ≤ fd.N →
      Inv fd n ∧ fd.M = some m ∧
      (n = 0 → fd.N + (zrOf fd).length = (ell + k).toNat) ∧
      (1 ≤ n → (ell + k).toNat + n ≤ fd.N + 1) := by
    intro fd n hR hN1
    rcases hR.2.2 with ⟨hF, _⟩ | h
    · rw [hF.2.2.2.1] at hN1
      omega
    · exact h
  refine ⟨?_, ?_, ?_⟩
  · intro rows fd n hlen hne h
    obtain ⟨hR, hN⟩ := main rows fd n hlen h
    have hN1 : 1 ≤ fd.N := by
      rw [hN]
      cases rows with
      | nil => exact absurd rfl hne
      | cons a l => simp
    obtain ⟨hI, hMm, _, _⟩ := notFresh fd n hR hN1
    have hmm : mOf fd = m := by
      have h1 := hI.2.2.1
      rw [hMm] at h1
      injection h1 with h2
      rw [h2]
    have hb := hI.2.2.2.2.2.2.2.1
    rw [hmm] at hb
    have hbuf : bufRows fd n m =
        (if n = 0 then (ell + k).toNat else min (ell + k).toNat m) := by
      unfold bufRows
      rw [hR.1, hR.2.1]
    constructor
    · rw [hb, hbuf]
    · have hrect := hI.2.2.2.2.2.2.1
      rw [hmm] at hrect
      refine cols_eq_of_rect hrect (List.ne_nil_of_length_pos ?_)
      rw [hb, hbuf]
      split_ifs <;> omega
  · intro rows fd n hlen hcount h
    obtain ⟨hR, hN⟩ := main rows fd n hlen h
    have hN1 : 1 ≤ fd.N := by
      rw [hN, hcount]
      omega
    obtain ⟨hI, _, hz0, hz1⟩ := notFresh fd n hR hN1
    have hzlen : 1 ≤ (zrOf fd).length := by
      have hzne := hI.2.2.2.2.2.2.2.2.1
      cases hzz : zrOf fd with
      | nil => exact absurd hzz hzne
      | cons a l => simp
    rcases Nat.eq_zero_or_pos n with h0 | hpos
    · have := hz0 h0
      rw [hN, hcount] at this
      omega
    · have := hz1 hpos
      rw [hN, hcount] at this
      omega
  · intro rows fd n hlen hcount h
    obtain ⟨hR, hN⟩ := main rows fd n hlen h
    have hN1 : 1 ≤ fd.N := by
      rw [hN, hcount]
      omega
    obtain ⟨hI, _, hz0, _⟩ := notFresh fd n hR hN1
    have hzlen : 1 ≤ (zrOf fd).length := by
      have hzne := hI.2.2.2.2.2.2.2.2.1
      cases hzz : zrOf fd with
      | nil => exact absurd hzz hzne
      | cons a l => simp
    rcases Nat.eq_zero_or_pos n with h0 | hpos
    · have := hz0 h0
      rw [hN, hcount] at this
      omega
    · exact hpos

/-- C1 witness: a concrete `ell = k = 1`, `M = 2` run of `ell+k+1 = 3`
adds (the second triggers the one shrink); the amended theorem gives the
`min(ell+k, M) × M = 2 × 2` shape and the positive shrink count. -/
theorem C1_shape_amended_witness :
    addSeqC trivOracle (fdNew 1 (some 1)) [[1,0],[0,1],[0,0]] =
      .ok (⟨1, 1, some 2, 3, some [[0,0],[0,0]], some [1]⟩, 1) ∧
    (bOf ⟨1, 1, some 2, 3, some [[0,0],[0,0]], some [1]⟩).length =
      (if (1 : ℕ) = 0 then ((1 : ℤ) + 1).toNat
       else min ((1 : ℤ) + 1).toNat 2) ∧
    1 ≤ 1 :=
  ⟨by decide,
   ((C1_shape_amended trivOracle 1 1 2 goodOracle_triv (by decide) (by decide)
      (by decide)).1 [[1,0],[0,1],[0,0]]
      ⟨1, 1, some 2, 3, some [[0,0],[0,0]], some [1]⟩ 1
      (by decide) (by decide) (by decide)).1,
   (C1_shape_amended trivOracle 1 1 2 goodOracle_triv (by decide) (by decide)
      (by decide)).2.2 [[1,0],[0,1],[0,0]]
      ⟨1, 1, some 2, 3, some [[0,0],[0,0]], some [1]⟩ 1
      (by decide) (by decide) (by decide)⟩

lemma sumSq_nonneg (a : Mat) : 0 ≤ sumSq a := by
  apply List.sum_nonneg
  intro x hx
  simp only [List.mem_map] at hx
  obtain ⟨r, _, rfl⟩ := hx
  apply List.sum_nonneg
  intro y hy
  simp only [List.mem_map] at hy
  obtain ⟨v, _, rfl⟩ := hy
  positivity

lemma squaredFrobeniusNorm_eq (a : Mat) :
    squaredFrobeniusNorm a = ((sumSq a : ℚ) : ℝ) := by
  unfold squaredFrobeniusNorm
  rw [Real.sq_sqrt]
  exact_mod_cast sumSq_nonneg a

lemma gram_diff_C3 (i j : Fin 4) :
    gram 4 rowsC3 i j - gram 4 BresC3 i j = 18 * (wq i * wq j) := by
  revert i j
  decide

/-- The spectral norm of the Gram difference of the C3 run is at least
`72` (witnessed by the direction `w` itself). -/
lemma calcError_C3 : (72 : ℝ) ≤ calculateError 4 rowsC3 BresC3 := by
  unfold calculateError specNorm
  set S : Matrix (Fin 4) (Fin 4) ℝ :=
    ((gram 4 rowsC3).map fun q => (q : ℝ)) -
      ((gram 4 BresC3).map fun q => (q : ℝ)) with hS
  have hSe : ∀ i j, S i j = ((18 * (wq i * wq j) : ℚ) : ℝ) := by
    intro i j
    rw [hS, Matrix.sub_apply, Matrix.map_apply, Matrix.map_apply,
      ← Rat.cast_sub, gram_diff_C3 i j]
  set x : EuclideanSpace ℝ (Fin 4) :=
    (WithLp.equiv 2 (Fin 4 → ℝ)).symm ![1,1,-1,-1] with hx
  have hnx : ‖x‖ = 2 := by
    rw [hx, EuclideanSpace.norm_eq]
    have h4 : ∑ i : Fin 4,
        ‖(WithLp.equiv 2 (Fin 4 → ℝ)).symm ![(1:ℝ),1,-1,-1] i‖ ^ 2 = 4 := by
      simp only [WithLp.equiv_symm_pi_apply]
      rw [Fin.sum_univ_four]
      norm_num [Matrix.cons_val_zero, Matrix.cons_val_one]
    rw [h4, show (4 : ℝ) = 2 ^ 2 by norm_num, Real.sqrt_sq (by norm_num)]
  have hmv : S.mulVec ![1,1,-1,-1] = ![72,72,-72,-72] := by
    funext i
    simp only [Matrix.mulVec, Matrix.dotProduct, Fin.sum_univ_four, hSe]
    fin_cases i <;>
      norm_num [Matrix.vecHead, Matrix.vecTail, wq,
        Matrix.cons_val_zero, Matrix.cons_val_one]
  have happ : (LinearMap.toContinuousLinearMap (Matrix.toEuclideanLin S)) x =
      (WithLp.equiv 2 (Fin 4 → ℝ)).symm ![72,72,-72,-72] := by
    have hco : (LinearMap.toContinuousLinearMap (Matrix.toEuclideanLin S)) x =
        (Matrix.toEuclideanLin S) x := by
      rw [LinearMap.coe_toContinuousLinearMap']
    rw [hco, hx, Matrix.toEuclideanLin_apply_piLp_equiv_symm, hmv]
  have hnSx : ‖(WithLp.equiv 2 (Fin 4 → ℝ)).symm ![(72:ℝ),72,-72,-72]‖ = 144 := by
    rw [EuclideanSpace.norm_eq]
    have h4 : ∑ i : Fin 4,
        ‖(WithLp.equiv 2 (Fin 4 → ℝ)).symm ![(72:ℝ),72,-72,-72] i‖ ^ 2 = 20736 := by
      simp only [WithLp.equiv_symm_pi_apply]
      rw [Fin.sum_univ_four]
      norm_num [Matrix.cons_val_zero, Matrix.cons_val_one]
    rw [h4, show (20736 : ℝ) = 144 ^ 2 by norm_num, Real.sqrt_sq (by norm_num)]
  have hle := (LinearMap.toContinuousLinearMap (Matrix.toEuclideanLin S)).le_opNorm x
  rw [happ, hnSx, hnx] at hle
  linarith

/-- C3 (code bug): the Frequent Directions error bound
`‖AᵀA − BᵀB‖₂ ≤ ‖A‖²_F / ell` FAILS on this code.  Feeding the seven
rows of `rowsC3` (all multiples of `w = (1,1,-1,-1)`, whose entries sum
to zero) through a fresh `ell = 2, k = 1` engine: at each shrink the
single retained row `3w` has row sum exactly 0, so the 7-digit zero test
marks it FREE and the next adds overwrite the accumulated sketch mass.
`finalize` then returns `B = [w; 0]` with
`‖AᵀA − BᵀB‖₂ ≥ 72 > 38.000038 = (‖A‖²_F / ell)·(1 + 10⁻⁶)`.  The SVD
used at both shrinks is certified genuine, so the real numpy run behaves
the same way (up to the sign of `V`, which does not affect the row sums). -/
theorem C3_error_bound_violated :
    isSVDOf B1C3 outC3 ∧
    addSeq oC3 (fdNew 2 (some 1)) rowsC3 = .ok fdC3 ∧
    fdC3.get_result false = .ok (BresC3, fdC3) ∧
    squaredFrobeniusNorm rowsC3 / 2 * (1 + 1 / 1000000) <
      calculateError 4 rowsC3 BresC3 := by
  refine ⟨by decide, by decide, by decide, ?_⟩
  have h76 : squaredFrobeniusNorm rowsC3 = ((76 : ℚ) : ℝ) := by
    rw [squaredFrobeniusNorm_eq]
    norm_num [show sumSq rowsC3 = 76 from by decide]
  calc squaredFrobeniusNorm rowsC3 / 2 * (1 + 1 / 1000000)
      = 38 + 38 / 1000000 := by
        rw [h76]
        push_cast
        ring
    _ < 72 := by norm_num
    _ ≤ calculateError 4 rowsC3 BresC3 := calcError_C3

end FDSketch
